import Mathlib

/-!
Verification of the gousset timing profiler (src/gousset/core.py) against its
specification.

Shallow embedding conventions:
* Python values passed to and returned from profiled callables are modelled by
  `Val := Int`; a raised exception is modelled by its message (`Err := String`),
  and a fallible call returns `Except Err Val`.
* A Python callable is a `CVal`: either a plain function carrying its
  `__name__` / `__module__` metadata, or a timing wrapper produced by
  `_create_timed_function` (closing over the module name, the function name
  and the wrapped callable; `functools.wraps` copies the metadata of the
  wrapped callable, which is reflected by `CVal.pyName` / `CVal.pyModule`).
* A module object is a dictionary from attribute names to attributes
  (`ModuleDict`), modelled as an insertion-ordered association list with the
  update discipline of a Python dict (`alSet`: update in place, new keys
  appended at the end).  `dir(module)` is modelled by the list of keys.
* The process-wide mutable state of gousset/core.py (`_timings`,
  `_instrumented_modules`, `_original_functions`, `_registered_exit`) is the
  record `GState`; `sys.modules` together with `GState` forms the `World`.
  The nested defaultdict `_timings[module][func]` is flattened to an
  association list keyed by the (module name, function name) pair, which is
  how both the spec and the code address a series.
* `time.time()` is modelled by an ambient clock `clk : Nat → Rat` read at an
  increasing counter: every textual call to `time.time()` consumes one tick.
* `atexit.register` is modelled by the `registeredExit` flag alone; the exit
  callback itself is the pure report `printAllStatistics`.
-/

namespace Gousset

/-- Python values handled by profiled callables. -/
abbrev Val := Int

/-- A raised Python exception, identified by its message. -/
abbrev Err := String

/-- The body of a plain Python callable: arguments to result or exception. -/
def Fn := List Val → Except Err Val

/-- A Python callable value: a plain function (with optional `__name__` and
`__module__` attributes) or a timing wrapper created by
`_create_timed_function`. -/
inductive CVal where
  | func (pyNm pyMod : Option String) (fn : Fn)
  | wrapper (modName funcName : String) (orig : CVal)

/-- The `__name__` attribute of a callable; `functools.wraps` copies it from
the wrapped callable onto the wrapper. -/
def CVal.pyName : CVal → Option String
  | .func n _ _ => n
  | .wrapper _ _ o => o.pyName

/-- The `__module__` attribute of a callable; `functools.wraps` copies it from
the wrapped callable onto the wrapper. -/
def CVal.pyModule : CVal → Option String
  | .func _ m _ => m
  | .wrapper _ _ o => o.pyModule

/-- An attribute of a module, distinguishing exactly the cases the eligibility
test of `_instrument_module` distinguishes: a callable that is neither a class
nor a module, a class (callable, but `inspect.isclass`), a sub-module, and a
non-callable value. -/
inductive Attr where
  | call (c : CVal)
  | cls
  | smod
  | plain (v : Val)

/-- A module object: its attribute dictionary, insertion ordered. -/
abbrev ModuleDict := List (String × Attr)

/-- Lookup in an association list (Python `dict` access / `getattr`). -/
def alGet {κ α : Type _} [DecidableEq κ] : List (κ × α) → κ → Option α
  | [], _ => none
  | (k, v) :: r, k0 => if k = k0 then some v else alGet r k0

/-- Update an association list the way a Python `dict` assignment does:
an existing key keeps its position and gets the new value, a new key is
appended at the end. -/
def alSet {κ α : Type _} [DecidableEq κ] : List (κ × α) → κ → α → List (κ × α)
  | [], k0, v0 => [(k0, v0)]
  | (k, v) :: r, k0, v0 => if k = k0 then (k, v0) :: r else (k, v) :: alSet r k0 v0

/-- Key membership in an association list (`in` / `hasattr`). -/
def alHas {κ α : Type _} [DecidableEq κ] (l : List (κ × α)) (k : κ) : Bool :=
  (alGet l k).isSome

/-- The process-wide mutable state of gousset/core.py: `_timings` (flattened to
(module name, function name) keys), `_instrumented_modules`,
`_original_functions`, and `_registered_exit`. -/
structure GState where
  timings : List ((String × String) × List Rat)
  instrumented : List String
  originals : List ((String × String) × CVal)
  registeredExit : Bool

/-- The state at interpreter start: every container empty, no exit hook. -/
def initState : GState :=
  { timings := [], instrumented := [], originals := [], registeredExit := false }

/-- The world: `sys.modules` (name to module object) plus the gousset state. -/
structure World where
  sysModules : List (String × ModuleDict)
  gs : GState

/-- Model of `_register_exit_handler`: registers the statistics printer with
`atexit` only when the `_registered_exit` flag is still unset. -/
def registerExitHandler (s : GState) : GState :=
  if s.registeredExit then s else { s with registeredExit := true }

/-- Model of `_timings[moduleName][funcName].append(dt)`: the defaultdict
creates the series on first access, so an absent key starts from `[]`. -/
def appendTiming (ts : List ((String × String) × List Rat)) (k : String × String)
    (dt : Rat) : List ((String × String) × List Rat) :=
  alSet ts k ((alGet ts k).getD [] ++ [dt])

/-- Invoke a callable.  A plain function is pure.  A timing wrapper
(`timed_wrapper` in `_create_timed_function`) reads `time.time()` before the
delegated call and, only when the delegated call returns normally, reads
`time.time()` again, appends the difference to the timing series of its
(module name, function name) key, and returns the delegated result; an
exception propagates unchanged with no sample recorded.  The `Nat` argument is
the clock counter: each `time.time()` call consumes one tick of `clk`. -/
def callCVal (clk : Nat → Rat) : CVal → List Val → GState → Nat →
    Except Err Val × GState × Nat
  | .func _ _ f, args, s, t => (f args, s, t)
  | .wrapper m n orig, args, s, t =>
    match callCVal clk orig args s (t + 1) with
    | (.error e, s1, t1) => (.error e, s1, t1)
    | (.ok v, s1, t1) =>
      (.ok v, { s1 with timings := appendTiming s1.timings (m, n) (clk t1 - clk t) },
        t1 + 1)

/-- Model of the call `_create_timed_function(orig, func_name, module_name,
**kwargs)`.  The definition of `_create_timed_function` in the source declares
exactly three parameters and no `**kwargs`, so under Python call semantics any
extra keyword argument raises a `TypeError` naming the unexpected keyword;
with no extra keywords it returns the timing wrapper. -/
def createTimedFunction (orig : CVal) (funcName moduleName : String)
    (kwargs : List (String × Val)) : Except Err CVal :=
  match kwargs with
  | [] => .ok (.wrapper moduleName funcName orig)
  | (k, _) :: _ =>
    .error ("_create_timed_function() got an unexpected keyword argument: " ++ k)

/-- Model of `name.startswith("_")`: the first character of the name is an
underscore. -/
def startsWithUnderscore (n : String) : Bool :=
  n.data.head? == some '_'

/-- The name filter of the `_instrument_module` loop: skip names starting with
an underscore, then skip names outside `only` when `only` is given, then skip
names inside `exclude` when `exclude` is given. -/
def nameSelected (only exclude : Option (List String)) (n : String) : Bool :=
  !(startsWithUnderscore n) &&
    (match only with | none => true | some o => o.contains n) &&
    (match exclude with | none => true | some e => !(e.contains n))

/-- The body of the `for name in dir(module)` loop of `_instrument_module`,
iterating over the (fixed) list of attribute names.  For every selected name
whose attribute is an eligible callable it stores the original in
`_original_functions`, builds the timing wrapper and rebinds the attribute;
a `TypeError` escaping from `_create_timed_function` aborts the loop,
keeping every mutation made so far. -/
def instrumentModuleLoop (kwargs : List (String × Val)) (modName : String)
    (only exclude : Option (List String)) :
    List String → ModuleDict → GState → ModuleDict × GState × Option Err
  | [], md, s => (md, s, none)
  | n :: rest, md, s =>
    if nameSelected only exclude n then
      match alGet md n with
      | some (.call c) =>
        let s1 := { s with originals := alSet s.originals (modName, n) c }
        match createTimedFunction c n modName kwargs with
        | .error e => (md, s1, some e)
        | .ok w =>
          instrumentModuleLoop kwargs modName only exclude rest (alSet md n (.call w)) s1
      | _ => instrumentModuleLoop kwargs modName only exclude rest md s
    else instrumentModuleLoop kwargs modName only exclude rest md s

/-- Model of `_instrument_module`: a no-op when the module name is already in
`_instrumented_modules`; otherwise the name is added to the set and every
attribute name of the module is processed by the loop. -/
def instrumentModule (kwargs : List (String × Val)) (modName : String)
    (md : ModuleDict) (only exclude : Option (List String)) (s : GState) :
    ModuleDict × GState × Option Err :=
  if modName ∈ s.instrumented then (md, s, none)
  else
    instrumentModuleLoop kwargs modName only exclude (md.map Prod.fst) md
      { s with instrumented := s.instrumented ++ [modName] }

/-- The `only` / `exclude` normalisation in `instrument`: a single string
becomes a one-element set, any other iterable becomes the set of its
elements (kept as a list, used only through membership). -/
def normalizeNames : Option (String ⊕ List String) → Option (List String)
  | none => none
  | some (.inl s) => some [s]
  | some (.inr l) => some l

/-- Model of `instrument` applied to a module object (the `inspect.ismodule`
check passes): `_register_exit_handler` runs first, the filters are
normalised, and `_instrument_module` does the work.  The module object is
given by its `__name__` and its attribute dictionary. -/
def instrument (modName : String) (md : ModuleDict)
    (only exclude : Option (String ⊕ List String)) (kwargs : List (String × Val))
    (s : GState) : ModuleDict × GState × Option Err :=
  instrumentModule kwargs modName md (normalizeNames only) (normalizeNames exclude)
    (registerExitHandler s)

/-- Model of `instrument` applied to a non-module argument of the given type
name: `_register_exit_handler` runs first, then the `inspect.ismodule` check
fails and a `ValueError` naming the actual type is raised.  The returned pair
is the state after the failed call and the exception message. -/
def instrumentNonModule (typeName : String) (s : GState) : GState × Err :=
  (registerExitHandler s, "First argument must be a module, got " ++ typeName)

/-- Model of `_instrument_single_function`: derives the name and module of the
callable (sentinels when the attributes are missing), looks the identity up in
`_original_functions` — the body of that `if` is `pass`, so the lookup has no
effect — then unconditionally stores the callable in the registry, builds a
fresh wrapper, rebinds the attribute in the owning module when it is loaded
and has the attribute, and returns the wrapper (a `TypeError` from extra
keyword arguments propagates after the registry store). -/
def instrumentSingleFunction (c : CVal) (kwargs : List (String × Val)) (w : World) :
    World × Except Err CVal :=
  let funcName := c.pyName.getD "unknown_function"
  let modName := c.pyModule.getD "unknown_module"
  let gs1 := { w.gs with originals := alSet w.gs.originals (modName, funcName) c }
  match createTimedFunction c funcName modName kwargs with
  | .error e => ({ w with gs := gs1 }, .error e)
  | .ok tf =>
    match alGet w.sysModules modName with
    | some md =>
      if alHas md funcName then
        ({ sysModules := alSet w.sysModules modName (alSet md funcName (.call tf)),
           gs := gs1 }, .ok tf)
      else ({ w with gs := gs1 }, .ok tf)
    | none => ({ w with gs := gs1 }, .ok tf)

/-- One entry of the restoration walk of `restore_all`: the key is split back
into module name and function name, and when the module is in `sys.modules`
and has the attribute, the attribute is rebound to the stored original; any
other situation (and any error, caught by the `try`/`except`) leaves the
world unchanged. -/
def restoreEntry (sysm : List (String × ModuleDict)) (k : String × String)
    (orig : CVal) : List (String × ModuleDict) :=
  match alGet sysm k.1 with
  | some md => if alHas md k.2 then alSet sysm k.1 (alSet md k.2 (.call orig)) else sysm
  | none => sysm

/-- Model of `restore_all`: walks every registry entry best-effort, then
unconditionally resets all four pieces of process-wide state to their initial
values.  The function is total: a per-entry failure never aborts the walk. -/
def restoreAll (w : World) : World :=
  { sysModules := w.gs.originals.foldl (fun acc p => restoreEntry acc p.1 p.2) w.sysModules,
    gs := initState }

/-- Attribute lookup through `sys.modules`: the attribute `a` of the module
named `m`, when both resolve. -/
def getAttr (sysm : List (String × ModuleDict)) (m a : String) : Option Attr :=
  (alGet sysm m).bind (fun md => alGet md a)

/-- Minimum of a timing series (`min(times)`); the empty case is unreachable
behind the `if not times: continue` guard. -/
def listMin : List Rat → Rat
  | [] => 0
  | x :: r => r.foldl min x

/-- Maximum of a timing series (`max(times)`). -/
def listMax : List Rat → Rat
  | [] => 0
  | x :: r => r.foldl max x

/-- Arithmetic mean (`statistics.mean`). -/
def mean (xs : List Rat) : Rat := xs.sum / xs.length

/-- Square of the sample standard deviation (`statistics.stdev` squared):
the sum of squared deviations from the mean divided by n - 1.  The square
characterises the printed value, which is its nonnegative square root. -/
def sampleStdevSq (xs : List Rat) : Rat :=
  (xs.map (fun x => (x - mean xs) ^ 2)).sum / ((xs.length : Rat) - 1)

/-- The per-function statistics printed by `_print_all_statistics`:
call count, sum, mean, standard deviation (squared here; the source prints
`statistics.stdev(times) if len(times) > 1 else 0.0`), minimum and maximum. -/
structure FuncStats where
  count : Nat
  total : Rat
  avg : Rat
  stdSq : Rat
  minT : Rat
  maxT : Rat
  deriving DecidableEq

/-- The statistics `_print_all_statistics` computes for one timing series. -/
def computeStats (xs : List Rat) : FuncStats :=
  { count := xs.length
    total := xs.sum
    avg := mean xs
    stdSq := if 1 < xs.length then sampleStdevSq xs else 0
    minT := listMin xs
    maxT := listMax xs }

/-- Model of `_print_all_statistics` as the report it prints: one statistics
block per key with a non-empty series (the empty-map and empty-series guards
skip everything else); state is not modified. -/
def printAllStatistics (timings : List ((String × String) × List Rat)) :
    List ((String × String) × FuncStats) :=
  (timings.filter (fun p => !p.2.isEmpty)).map (fun p => (p.1, computeStats p.2))

/-- A plain callable returning a constant value, used as a concrete test
function. -/
def constFn (v : Val) : Fn := fun _ => .ok v

/-- A plain callable raising an exception, used as a concrete test function. -/
def raiseFn (e : Err) : Fn := fun _ => .error e

/-- A concrete clock for witnesses: `time.time()` returns the tick index. -/
def unitClock : Nat → Rat := fun u => (u : Rat)

/-! ### Association-list lemmas -/

theorem alGet_alSet_self {κ α : Type _} [DecidableEq κ] (l : List (κ × α)) (k : κ)
    (v : α) : alGet (alSet l k v) k = some v := by
  induction l with
  | nil => simp [alGet, alSet]
  | cons p r ih =>
    obtain ⟨k1, v1⟩ := p
    by_cases h : k1 = k <;> simp [alGet, alSet, h, ih]

theorem alGet_alSet_ne {κ α : Type _} [DecidableEq κ] (l : List (κ × α)) (k k0 : κ)
    (v : α) (h : k0 ≠ k) : alGet (alSet l k v) k0 = alGet l k0 := by
  have hks : ¬ k = k0 := fun hh => h hh.symm
  induction l with
  | nil => simp [alGet, alSet, hks]
  | cons p r ih =>
    obtain ⟨k1, v1⟩ := p
    by_cases h1 : k1 = k
    · subst h1
      simp [alGet, alSet, hks]
    · simp [alGet, alSet, h1, ih]

theorem alGet_mem_keys {κ α : Type _} [DecidableEq κ] (l : List (κ × α)) (k : κ)
    (a : α) (h : alGet l k = some a) : k ∈ l.map Prod.fst := by
  induction l with
  | nil => simp [alGet] at h
  | cons p r ih =>
    obtain ⟨k1, v1⟩ := p
    by_cases h1 : k1 = k
    · simp [h1]
    · simp only [alGet, if_neg h1] at h
      simp [ih h]

theorem alGet_not_mem_keys {κ α : Type _} [DecidableEq κ] (l : List (κ × α)) (k : κ)
    (h : k ∉ l.map Prod.fst) : alGet l k = none := by
  induction l with
  | nil => simp [alGet]
  | cons p r ih =>
    obtain ⟨k1, v1⟩ := p
    simp only [List.map_cons, List.mem_cons] at h
    push_neg at h
    have h1 : ¬ k1 = k := fun hh => h.1 hh.symm
    simp [alGet, h1, ih h.2]

/-! ### Lemmas about the exit-handler flag -/

theorem registerExitHandler_flag (s : GState) :
    (registerExitHandler s).registeredExit = true := by
  by_cases h : s.registeredExit <;> simp [registerExitHandler, h]

theorem registerExitHandler_eq (s : GState) :
    registerExitHandler s = { s with registeredExit := true } := by
  by_cases h : s.registeredExit
  · cases s
    simp_all [registerExitHandler]
  · simp_all [registerExitHandler]

theorem registerExitHandler_of_flag (s : GState) (h : s.registeredExit = true) :
    registerExitHandler s = s := by
  simp [registerExitHandler, h]

/-! ### Lemmas about the instrumentation loop (no extra keyword arguments) -/

theorem loop_gstate_misc (modName : String) (only exclude : Option (List String))
    (names : List String) : ∀ (md : ModuleDict) (s : GState),
    (instrumentModuleLoop [] modName only exclude names md s).2.1.instrumented
        = s.instrumented ∧
    (instrumentModuleLoop [] modName only exclude names md s).2.1.timings = s.timings ∧
    (instrumentModuleLoop [] modName only exclude names md s).2.1.registeredExit
        = s.registeredExit ∧
    (instrumentModuleLoop [] modName only exclude names md s).2.2 = none := by
  induction names with
  | nil => intro md s; simp [instrumentModuleLoop]
  | cons n rest ih =>
    intro md s
    by_cases hsel : nameSelected only exclude n = true
    · cases hget : alGet md n with
      | none => simp [instrumentModuleLoop, hsel, hget, ih]
      | some a =>
        cases a with
        | call c =>
          simp only [instrumentModuleLoop, hsel, hget, createTimedFunction, if_true]
          exact ih _ _
        | cls => simp [instrumentModuleLoop, hsel, hget, ih]
        | smod => simp [instrumentModuleLoop, hsel, hget, ih]
        | plain v => simp [instrumentModuleLoop, hsel, hget, ih]
    · simp [instrumentModuleLoop, hsel, ih]

theorem loop_md_of_not_mem (modName : String) (only exclude : Option (List String))
    (names : List String) : ∀ (md : ModuleDict) (s : GState) (n : String),
    n ∉ names →
    alGet (instrumentModuleLoop [] modName only exclude names md s).1 n = alGet md n := by
  induction names with
  | nil => intro md s n _; simp [instrumentModuleLoop]
  | cons n0 rest ih =>
    intro md s n hn
    simp only [List.mem_cons] at hn
    push_neg at hn
    by_cases hsel : nameSelected only exclude n0 = true
    · cases hget : alGet md n0 with
      | none => simp [instrumentModuleLoop, hsel, hget, ih _ _ _ hn.2]
      | some a =>
        cases a with
        | call c =>
          simp only [instrumentModuleLoop, hsel, hget, createTimedFunction, if_true]
          rw [ih _ _ _ hn.2, alGet_alSet_ne _ _ _ _ hn.1]
        | cls => simp [instrumentModuleLoop, hsel, hget, ih _ _ _ hn.2]
        | smod => simp [instrumentModuleLoop, hsel, hget, ih _ _ _ hn.2]
        | plain v => simp [instrumentModuleLoop, hsel, hget, ih _ _ _ hn.2]
    · simp [instrumentModuleLoop, hsel, ih _ _ _ hn.2]

theorem loop_md_of_not_sel (modName : String) (only exclude : Option (List String))
    (names : List String) : ∀ (md : ModuleDict) (s : GState) (n : String),
    names.Nodup → nameSelected only exclude n = false →
    alGet (instrumentModuleLoop [] modName only exclude names md s).1 n = alGet md n := by
  induction names with
  | nil => intro md s n _ _; simp [instrumentModuleLoop]
  | cons n0 rest ih =>
    intro md s n hnd hns
    rw [List.nodup_cons] at hnd
    by_cases hsel : nameSelected only exclude n0 = true
    · have hne : n ≠ n0 := by
        intro he; rw [he, hsel] at hns; exact absurd hns (by simp)
      cases hget : alGet md n0 with
      | none => simp [instrumentModuleLoop, hsel, hget, ih _ _ _ hnd.2 hns]
      | some a =>
        cases a with
        | call c =>
          simp only [instrumentModuleLoop, hsel, hget, createTimedFunction, if_true]
          rw [ih _ _ _ hnd.2 hns, alGet_alSet_ne _ _ _ _ hne]
        | cls => simp [instrumentModuleLoop, hsel, hget, ih _ _ _ hnd.2 hns]
        | smod => simp [instrumentModuleLoop, hsel, hget, ih _ _ _ hnd.2 hns]
        | plain v => simp [instrumentModuleLoop, hsel, hget, ih _ _ _ hnd.2 hns]
    · simp [instrumentModuleLoop, hsel, ih _ _ _ hnd.2 hns]

theorem loop_md_wrapped (modName : String) (only exclude : Option (List String))
    (names : List String) : ∀ (md : ModuleDict) (s : GState) (n : String) (c : CVal),
    names.Nodup → n ∈ names → nameSelected only exclude n = true →
    alGet md n = some (.call c) →
    alGet (instrumentModuleLoop [] modName only exclude names md s).1 n
      = some (.call (.wrapper modName n c)) := by
  induction names with
  | nil => intro md s n c _ hmem; simp at hmem
  | cons n0 rest ih =>
    intro md s n c hnd hmem hsel hget
    rw [List.nodup_cons] at hnd
    by_cases he : n0 = n
    · subst he
      simp only [instrumentModuleLoop, hsel, hget, createTimedFunction, if_true]
      rw [loop_md_of_not_mem _ _ _ _ _ _ _ hnd.1, alGet_alSet_self]
    · have hmem2 : n ∈ rest := by
        rcases List.mem_cons.mp hmem with h | h
        · exact absurd h.symm he
        · exact h
      by_cases hsel0 : nameSelected only exclude n0 = true
      · cases hget0 : alGet md n0 with
        | none => simp [instrumentModuleLoop, hsel0, hget0, ih _ _ _ _ hnd.2 hmem2 hsel hget]
        | some a =>
          cases a with
          | call c0 =>
            simp only [instrumentModuleLoop, hsel0, hget0, createTimedFunction, if_true]
            have hget2 : alGet (alSet md n0 (Attr.call (.wrapper modName n0 c0))) n
                = some (.call c) := by
              rw [alGet_alSet_ne _ _ _ _ (fun hh => he hh.symm)]; exact hget
            exact ih _ _ _ _ hnd.2 hmem2 hsel hget2
          | cls => simp [instrumentModuleLoop, hsel0, hget0, ih _ _ _ _ hnd.2 hmem2 hsel hget]
          | smod => simp [instrumentModuleLoop, hsel0, hget0, ih _ _ _ _ hnd.2 hmem2 hsel hget]
          | plain v =>
            simp [instrumentModuleLoop, hsel0, hget0, ih _ _ _ _ hnd.2 hmem2 hsel hget]
      · simp [instrumentModuleLoop, hsel0, ih _ _ _ _ hnd.2 hmem2 hsel hget]

theorem loop_md_of_not_call (modName : String) (only exclude : Option (List String))
    (names : List String) : ∀ (md : ModuleDict) (s : GState) (n : String) (a : Attr),
    alGet md n = some a → (∀ c, a ≠ Attr.call c) →
    alGet (instrumentModuleLoop [] modName only exclude names md s).1 n = alGet md n := by
  induction names with
  | nil => intro md s n a _ _; simp [instrumentModuleLoop]
  | cons n0 rest ih =>
    intro md s n a hget hnc
    by_cases hsel : nameSelected only exclude n0 = true
    · cases hget0 : alGet md n0 with
      | none => simp [instrumentModuleLoop, hsel, hget0, ih _ _ _ _ hget hnc]
      | some a0 =>
        cases a0 with
        | call c0 =>
          have hne : n ≠ n0 := by
            intro he; rw [he, hget0] at hget
            exact hnc c0 (Option.some.inj hget).symm
          simp only [instrumentModuleLoop, hsel, hget0, createTimedFunction, if_true]
          have hget2 : alGet (alSet md n0 (Attr.call (.wrapper modName n0 c0))) n = some a := by
            rw [alGet_alSet_ne _ _ _ _ hne]; exact hget
          rw [ih _ _ _ _ hget2 hnc, hget2, hget]
        | cls => simp [instrumentModuleLoop, hsel, hget0, ih _ _ _ _ hget hnc]
        | smod => simp [instrumentModuleLoop, hsel, hget0, ih _ _ _ _ hget hnc]
        | plain v => simp [instrumentModuleLoop, hsel, hget0, ih _ _ _ _ hget hnc]
    · simp [instrumentModuleLoop, hsel, ih _ _ _ _ hget hnc]

theorem loop_orig_pres (modName : String) (only exclude : Option (List String))
    (names : List String) : ∀ (md : ModuleDict) (s : GState) (k : String × String),
    names.Nodup →
    (∀ n, n ∈ names → nameSelected only exclude n = true →
      (∃ c, alGet md n = some (Attr.call c)) → k ≠ (modName, n)) →
    alGet (instrumentModuleLoop [] modName only exclude names md s).2.1.originals k
      = alGet s.originals k := by
  induction names with
  | nil => intro md s k _ _; simp [instrumentModuleLoop]
  | cons n0 rest ih =>
    intro md s k hnd hk
    rw [List.nodup_cons] at hnd
    by_cases hsel : nameSelected only exclude n0 = true
    · cases hget0 : alGet md n0 with
      | none =>
        simp only [instrumentModuleLoop, hsel, hget0, if_true]
        exact ih _ _ _ hnd.2 (fun n hn hs hex => hk n (List.mem_cons_of_mem _ hn) hs hex)
      | some a0 =>
        cases a0 with
        | call c0 =>
          have hkne : k ≠ (modName, n0) :=
            hk n0 (List.mem_cons_self _ _) hsel ⟨c0, hget0⟩
          simp only [instrumentModuleLoop, hsel, hget0, createTimedFunction, if_true]
          have hrec := ih (alSet md n0 (Attr.call (.wrapper modName n0 c0)))
            { s with originals := alSet s.originals (modName, n0) c0 } k hnd.2 ?_
          · rw [hrec]
            exact alGet_alSet_ne _ _ _ _ hkne
          · intro n hn hs hex
            have hne0 : n ≠ n0 := fun he => hnd.1 (he ▸ hn)
            obtain ⟨c, hc⟩ := hex
            rw [alGet_alSet_ne _ _ _ _ hne0] at hc
            exact hk n (List.mem_cons_of_mem _ hn) hs ⟨c, hc⟩
        | cls =>
          simp only [instrumentModuleLoop, hsel, hget0, if_true]
          exact ih _ _ _ hnd.2 (fun n hn hs hex => hk n (List.mem_cons_of_mem _ hn) hs hex)
        | smod =>
          simp only [instrumentModuleLoop, hsel, hget0, if_true]
          exact ih _ _ _ hnd.2 (fun n hn hs hex => hk n (List.mem_cons_of_mem _ hn) hs hex)
        | plain v =>
          simp only [instrumentModuleLoop, hsel, hget0, if_true]
          exact ih _ _ _ hnd.2 (fun n hn hs hex => hk n (List.mem_cons_of_mem _ hn) hs hex)
    · simp only [instrumentModuleLoop, hsel, Bool.false_eq_true, if_false]
      exact ih _ _ _ hnd.2 (fun n hn hs hex => hk n (List.mem_cons_of_mem _ hn) hs hex)

theorem loop_orig_set (modName : String) (only exclude : Option (List String))
    (names : List String) : ∀ (md : ModuleDict) (s : GState) (n : String) (c : CVal),
    names.Nodup → n ∈ names → nameSelected only exclude n = true →
    alGet md n = some (.call c) →
    alGet (instrumentModuleLoop [] modName only exclude names md s).2.1.originals
      (modName, n) = some c := by
  induction names with
  | nil => intro md s n c _ hmem; simp at hmem
  | cons n0 rest ih =>
    intro md s n c hnd hmem hsel hget
    rw [List.nodup_cons] at hnd
    by_cases he : n0 = n
    · subst he
      simp only [instrumentModuleLoop, hsel, hget, createTimedFunction, if_true]
      rw [loop_orig_pres _ _ _ _ _ _ _ hnd.2 ?_, alGet_alSet_self]
      intro n1 hn1 _ _ hpair
      injection hpair with h1 h2
      exact hnd.1 (by rwa [← h2] at hn1)
    · have hmem2 : n ∈ rest := by
        rcases List.mem_cons.mp hmem with h | h
        · exact absurd h.symm he
        · exact h
      by_cases hsel0 : nameSelected only exclude n0 = true
      · cases hget0 : alGet md n0 with
        | none => simp [instrumentModuleLoop, hsel0, hget0, ih _ _ _ _ hnd.2 hmem2 hsel hget]
        | some a =>
          cases a with
          | call c0 =>
            simp only [instrumentModuleLoop, hsel0, hget0, createTimedFunction, if_true]
            have hget2 : alGet (alSet md n0 (Attr.call (.wrapper modName n0 c0))) n
                = some (.call c) := by
              rw [alGet_alSet_ne _ _ _ _ (fun hh => he hh.symm)]; exact hget
            exact ih _ _ _ _ hnd.2 hmem2 hsel hget2
          | cls => simp [instrumentModuleLoop, hsel0, hget0, ih _ _ _ _ hnd.2 hmem2 hsel hget]
          | smod => simp [instrumentModuleLoop, hsel0, hget0, ih _ _ _ _ hnd.2 hmem2 hsel hget]
          | plain v =>
            simp [instrumentModuleLoop, hsel0, hget0, ih _ _ _ _ hnd.2 hmem2 hsel hget]
      · simp [instrumentModuleLoop, hsel0, ih _ _ _ _ hnd.2 hmem2 hsel hget]

/-! ### Lemmas about `instrument` -/

theorem instrument_eq_loop (mname : String) (md : ModuleDict)
    (only exclude : Option (String ⊕ List String)) (kwargs : List (String × Val))
    (s : GState) (h : mname ∉ s.instrumented) :
    instrument mname md only exclude kwargs s
      = instrumentModuleLoop kwargs mname (normalizeNames only) (normalizeNames exclude)
          (md.map Prod.fst) md
          { timings := s.timings, instrumented := s.instrumented ++ [mname],
            originals := s.originals, registeredExit := true } := by
  obtain ⟨tg, ins, org, reg⟩ := s
  simp only [instrument, registerExitHandler_eq]
  simp only [instrumentModule]
  rw [if_neg h]

theorem instrument_noop (mname : String) (md : ModuleDict)
    (only exclude : Option (String ⊕ List String)) (kwargs : List (String × Val))
    (s : GState) (hmem : mname ∈ s.instrumented) (hreg : s.registeredExit = true) :
    instrument mname md only exclude kwargs s = (md, s, none) := by
  simp only [instrument, registerExitHandler_of_flag s hreg, instrumentModule]
  rw [if_pos hmem]

theorem instrument_mem_instrumented (mname : String) (md : ModuleDict)
    (only exclude : Option (String ⊕ List String)) (s : GState) :
    mname ∈ (instrument mname md only exclude [] s).2.1.instrumented := by
  by_cases h : mname ∈ s.instrumented
  · have hreg := registerExitHandler_eq s
    simp only [instrument, hreg, instrumentModule]
    rw [if_pos h]
    exact h
  · rw [instrument_eq_loop _ _ _ _ _ _ h]
    rw [(loop_gstate_misc _ _ _ _ _ _).1]
    simp

theorem instrument_registeredExit (mname : String) (md : ModuleDict)
    (only exclude : Option (String ⊕ List String)) (s : GState) :
    (instrument mname md only exclude [] s).2.1.registeredExit = true := by
  by_cases h : mname ∈ s.instrumented
  · simp only [instrument, registerExitHandler_eq, instrumentModule]
    rw [if_pos h]
  · rw [instrument_eq_loop _ _ _ _ _ _ h]
    rw [(loop_gstate_misc _ _ _ _ _ _).2.2.1]

/-! ### Claim theorems -/

/-- C1: for a module `N` (name `mname`, attribute dictionary `md`) not yet
instrumented and an eligible callable `f` of `N` (a plain public callable
attribute), `instrument(N)` succeeds and rebinds the attribute to the timing
wrapper of the original; invoking that replacement with any arguments on
which the original returns normally yields exactly the original's return
value and appends exactly one elapsed-time sample to the timing series keyed
by (module name, function name), leaving the rest of the state unchanged.
(The case where the original raises is claim C6.) -/
theorem C1_instrument_wraps_and_records (clk : Nat → Rat) (md : ModuleDict)
    (s : GState) (mname fname : String) (nm mo : Option String) (f : Fn)
    (args : List Val) (v : Val) (t : Nat)
    (hnd : (md.map Prod.fst).Nodup)
    (hni : mname ∉ s.instrumented)
    (hpub : startsWithUnderscore fname = false)
    (hattr : alGet md fname = some (.call (.func nm mo f)))
    (hok : f args = .ok v) :
    (instrument mname md none none [] s).2.2 = none ∧
    alGet (instrument mname md none none [] s).1 fname
      = some (.call (.wrapper mname fname (.func nm mo f))) ∧
    callCVal clk (.wrapper mname fname (.func nm mo f)) args
        (instrument mname md none none [] s).2.1 t
      = (.ok v,
         { (instrument mname md none none [] s).2.1 with
             timings := appendTiming (instrument mname md none none [] s).2.1.timings
               (mname, fname) (clk (t + 1) - clk t) },
         t + 2) := by
  rw [instrument_eq_loop _ _ _ _ _ _ hni]
  refine ⟨(loop_gstate_misc _ _ _ _ _ _).2.2.2, ?_, ?_⟩
  · exact loop_md_wrapped _ _ _ _ _ _ _ _ hnd (alGet_mem_keys _ _ _ hattr)
      (by simp [nameSelected, normalizeNames, hpub]) hattr
  · simp [callCVal, hok]

/-- Witness for C1 at a concrete one-function module. -/
theorem C1_witness :
    (instrument "M" [("f", Attr.call (CVal.func (some "f") (some "M") (constFn 7)))]
        none none [] initState).2.2 = none ∧
    alGet (instrument "M" [("f", Attr.call (CVal.func (some "f") (some "M") (constFn 7)))]
        none none [] initState).1 "f"
      = some (.call (.wrapper "M" "f" (.func (some "f") (some "M") (constFn 7)))) ∧
    callCVal unitClock (.wrapper "M" "f" (.func (some "f") (some "M") (constFn 7)))
        [3]
        (instrument "M" [("f", Attr.call (CVal.func (some "f") (some "M") (constFn 7)))]
            none none [] initState).2.1 0
      = (.ok 7,
         { (instrument "M" [("f", Attr.call (CVal.func (some "f") (some "M") (constFn 7)))]
               none none [] initState).2.1 with
             timings := appendTiming
               (instrument "M" [("f", Attr.call (CVal.func (some "f") (some "M") (constFn 7)))]
                   none none [] initState).2.1.timings
               ("M", "f") (unitClock (0 + 1) - unitClock 0) },
         0 + 2) :=
  C1_instrument_wraps_and_records unitClock
    [("f", Attr.call (CVal.func (some "f") (some "M") (constFn 7)))] initState
    "M" "f" (some "f") (some "M") (constFn 7) [3] 7 0
    (by simp) (by simp [initState]) (by rfl) (by rfl) (by rfl)

/-- C5: `instrument` is idempotent per namespace: after a first
`instrument(N)` call, the module name is in the instrumented set and a second
`instrument(N)` call returns immediately as an exact no-op — the module
dictionary and the whole process-wide state are returned unchanged and
nothing is re-wrapped or re-registered, so a wrapped callable carries exactly
one wrapper and each invocation is counted exactly once. -/
theorem C5_instrument_idempotent (mname : String) (md : ModuleDict)
    (only exclude : Option (String ⊕ List String)) (s : GState) :
    instrument mname
        (instrument mname md only exclude [] s).1 only exclude []
        (instrument mname md only exclude [] s).2.1
      = ((instrument mname md only exclude [] s).1,
         (instrument mname md only exclude [] s).2.1, none) :=
  instrument_noop _ _ _ _ _ _
    (instrument_mem_instrumented mname md only exclude s)
    (instrument_registeredExit mname md only exclude s)

/-- C6: a wrapped callable whose original raises propagates the exception
unchanged through the wrapper, and the process-wide state — in particular the
timing series of its identity — is completely unchanged: no sample is
recorded for the failed invocation. -/
theorem C6_wrapper_propagates_exception (clk : Nat → Rat) (m n : String)
    (nm mo : Option String) (f : Fn) (args : List Val) (s : GState) (t : Nat)
    (e : Err) (herr : f args = .error e) :
    callCVal clk (.wrapper m n (.func nm mo f)) args s t = (.error e, s, t + 1) := by
  simp [callCVal, herr]

/-- Witness for C6: a concrete raising callable behind a wrapper. -/
theorem C6_witness :
    callCVal unitClock (.wrapper "M" "f" (.func (some "f") (some "M") (raiseFn "boom")))
        [1, 2] initState 0
      = (.error "boom", initState, 0 + 1) :=
  C6_wrapper_propagates_exception unitClock "M" "f" (some "f") (some "M")
    (raiseFn "boom") [1, 2] initState 0 "boom" rfl

/-- C2 counterexample: calling `instrument` with a non-module argument (an
`int`) from the fresh process state raises the error naming the received type,
but it does mutate process-wide state: `_register_exit_handler()` runs before
the `inspect.ismodule` check, so the exit-hook-registered flag flips from
false to true.  This refutes the claim that no process-wide state (including
the exit-hook-registered flag) is mutated by the failed call. -/
theorem C2_counterexample :
    (instrumentNonModule "int" initState).2 = "First argument must be a module, got int" ∧
    initState.registeredExit = false ∧
    (instrumentNonModule "int" initState).1.registeredExit = true := by
  refine ⟨rfl, rfl, ?_⟩
  exact registerExitHandler_flag initState

/-- C2 as amended: `instrument` applied to a non-module argument raises the
error whose message names the actual type received, and the timing map, the
instrumented-namespace set and the original-callable registry are not
mutated by the failed call; the exit-hook-registered flag, however, is set
(the exit handler is registered before the argument check). -/
theorem C2_nonmodule_error_amended (typeName : String) (s : GState) :
    (instrumentNonModule typeName s).2
        = "First argument must be a module, got " ++ typeName ∧
    (instrumentNonModule typeName s).1.timings = s.timings ∧
    (instrumentNonModule typeName s).1.instrumented = s.instrumented ∧
    (instrumentNonModule typeName s).1.originals = s.originals ∧
    (instrumentNonModule typeName s).1.registeredExit = true := by
  refine ⟨rfl, ?_, ?_, ?_, registerExitHandler_flag s⟩ <;>
    simp [instrumentNonModule, registerExitHandler_eq]

/-- C8: filtering.  With `only={g}` exactly the callable `g` is wrapped: every
other name keeps its attribute, `g` is wrapped when it is an eligible public
callable, and an ineligible `g` (underscore-prefixed, or a class /
sub-namespace / non-callable attribute) is left alone.  With `exclude={g}`
every eligible public callable except `g` is wrapped and `g` is left alone.
The last conjunct states the filter itself: a name is a candidate iff it is
public and in `only` when `only` is given (all public names are candidates
otherwise), with `exclude` then removing names from that candidate set. -/
theorem C8_only_exclude_filters (md : ModuleDict) (s : GState) (mname g : String)
    (hnd : (md.map Prod.fst).Nodup) (hni : mname ∉ s.instrumented) :
    (∀ n, n ≠ g →
      alGet (instrument mname md (some (.inr [g])) none [] s).1 n = alGet md n) ∧
    (∀ c, startsWithUnderscore g = false → alGet md g = some (.call c) →
      alGet (instrument mname md (some (.inr [g])) none [] s).1 g
        = some (.call (.wrapper mname g c))) ∧
    (startsWithUnderscore g = true →
      alGet (instrument mname md (some (.inr [g])) none [] s).1 g = alGet md g) ∧
    (∀ a, alGet md g = some a → (∀ c, a ≠ Attr.call c) →
      alGet (instrument mname md (some (.inr [g])) none [] s).1 g = alGet md g) ∧
    (∀ n c, n ≠ g → startsWithUnderscore n = false → alGet md n = some (.call c) →
      alGet (instrument mname md none (some (.inr [g])) [] s).1 n
        = some (.call (.wrapper mname n c))) ∧
    (alGet (instrument mname md none (some (.inr [g])) [] s).1 g = alGet md g) ∧
    (∀ only exclude n, nameSelected only exclude n = true ↔
      (startsWithUnderscore n = false ∧ (∀ o, only = some o → n ∈ o) ∧
       (∀ e1, exclude = some e1 → n ∉ e1))) := by
  have h1 := instrument_eq_loop mname md (some (.inr [g])) none [] s hni
  have h2 := instrument_eq_loop mname md none (some (.inr [g])) [] s hni
  rw [h1, h2]
  refine ⟨?_, ?_, ?_, ?_, ?_, ?_, ?_⟩
  · intro n hne
    exact loop_md_of_not_sel _ _ _ _ _ _ _ hnd
      (by simp [nameSelected, normalizeNames, hne])
  · intro c hu hattr
    exact loop_md_wrapped _ _ _ _ _ _ _ _ hnd (alGet_mem_keys _ _ _ hattr)
      (by simp [nameSelected, normalizeNames, hu]) hattr
  · intro hu
    exact loop_md_of_not_sel _ _ _ _ _ _ _ hnd
      (by simp [nameSelected, normalizeNames, hu])
  · intro a hget hnc
    exact loop_md_of_not_call _ _ _ _ _ _ _ _ hget hnc
  · intro n c hne hu hget
    exact loop_md_wrapped _ _ _ _ _ _ _ _ hnd (alGet_mem_keys _ _ _ hget)
      (by simp [nameSelected, normalizeNames, hu, hne]) hget
  · exact loop_md_of_not_sel _ _ _ _ _ _ _ hnd
      (by simp [nameSelected, normalizeNames])
  · intro only exclude n
    cases only <;> cases exclude <;> simp [nameSelected, and_assoc]

/-- Witness for C8 on a concrete module with a public callable `f`, a public
callable `g`, a private callable `_h` and a class `K`. -/
theorem C8_witness :
    alGet (instrument "M"
        [("f", Attr.call (CVal.func (some "f") (some "M") (constFn 1))),
         ("g", Attr.call (CVal.func (some "g") (some "M") (constFn 2))),
         ("_h", Attr.call (CVal.func (some "_h") (some "M") (constFn 3))),
         ("K", Attr.cls)]
        (some (.inr ["g"])) none [] initState).1 "f"
      = some (Attr.call (CVal.func (some "f") (some "M") (constFn 1))) ∧
    alGet (instrument "M"
        [("f", Attr.call (CVal.func (some "f") (some "M") (constFn 1))),
         ("g", Attr.call (CVal.func (some "g") (some "M") (constFn 2))),
         ("_h", Attr.call (CVal.func (some "_h") (some "M") (constFn 3))),
         ("K", Attr.cls)]
        (some (.inr ["g"])) none [] initState).1 "g"
      = some (.call (.wrapper "M" "g" (CVal.func (some "g") (some "M") (constFn 2)))) ∧
    alGet (instrument "M"
        [("f", Attr.call (CVal.func (some "f") (some "M") (constFn 1))),
         ("g", Attr.call (CVal.func (some "g") (some "M") (constFn 2))),
         ("_h", Attr.call (CVal.func (some "_h") (some "M") (constFn 3))),
         ("K", Attr.cls)]
        none (some (.inr ["g"])) [] initState).1 "f"
      = some (.call (.wrapper "M" "f" (CVal.func (some "f") (some "M") (constFn 1)))) ∧
    alGet (instrument "M"
        [("f", Attr.call (CVal.func (some "f") (some "M") (constFn 1))),
         ("g", Attr.call (CVal.func (some "g") (some "M") (constFn 2))),
         ("_h", Attr.call (CVal.func (some "_h") (some "M") (constFn 3))),
         ("K", Attr.cls)]
        none (some (.inr ["g"])) [] initState).1 "g"
      = some (Attr.call (CVal.func (some "g") (some "M") (constFn 2))) := by
  have h := C8_only_exclude_filters
    [("f", Attr.call (CVal.func (some "f") (some "M") (constFn 1))),
     ("g", Attr.call (CVal.func (some "g") (some "M") (constFn 2))),
     ("_h", Attr.call (CVal.func (some "_h") (some "M") (constFn 3))),
     ("K", Attr.cls)]
    initState "M" "g" (by simp) (by simp [initState])
  refine ⟨?_, ?_, ?_, ?_⟩
  · rw [h.1 "f" (by decide)]; rfl
  · exact h.2.1 (CVal.func (some "g") (some "M") (constFn 2)) rfl rfl
  · exact h.2.2.2.2.1 "f" (CVal.func (some "f") (some "M") (constFn 1))
      (by decide) rfl rfl
  · rw [h.2.2.2.2.2.1]; rfl

/-- C10: a filtered instrumentation marks the whole namespace as
instrumented.  After `instrument(N, only=S)` on a fresh module, any
subsequent `instrument(N)` call — with any filters and any extra keyword
arguments, until `restore_all` — is an exact no-op, and the eligible
callables of `N` outside `S` remain unwrapped (their attributes unchanged)
and are never added to the original-callable registry. -/
theorem C10_partial_instrumentation_marks_namespace (md : ModuleDict) (s : GState)
    (mname : String) (S : List String)
    (hnd : (md.map Prod.fst).Nodup) (hni : mname ∉ s.instrumented) :
    (∀ (only2 exclude2 : Option (String ⊕ List String)) (kw2 : List (String × Val)),
      instrument mname (instrument mname md (some (.inr S)) none [] s).1 only2 exclude2
          kw2 (instrument mname md (some (.inr S)) none [] s).2.1
        = ((instrument mname md (some (.inr S)) none [] s).1,
           (instrument mname md (some (.inr S)) none [] s).2.1, none)) ∧
    (∀ n, n ∉ S →
      alGet (instrument mname md (some (.inr S)) none [] s).1 n = alGet md n) ∧
    (∀ n, n ∉ S →
      alGet (instrument mname md (some (.inr S)) none [] s).2.1.originals (mname, n)
        = alGet s.originals (mname, n)) := by
  refine ⟨?_, ?_, ?_⟩
  · intro only2 exclude2 kw2
    exact instrument_noop _ _ _ _ _ _
      (instrument_mem_instrumented mname md (some (.inr S)) none s)
      (instrument_registeredExit mname md (some (.inr S)) none s)
  · intro n hn
    rw [instrument_eq_loop _ _ _ _ _ _ hni]
    exact loop_md_of_not_sel _ _ _ _ _ _ _ hnd
      (by simp [nameSelected, normalizeNames, hn])
  · intro n hn
    rw [instrument_eq_loop _ _ _ _ _ _ hni]
    rw [loop_orig_pres _ _ _ _ _ _ _ hnd ?_]
    intro n1 _ hsel _ hpair
    injection hpair with _ hnn
    simp only [nameSelected, normalizeNames, Bool.and_eq_true] at hsel
    have : n1 ∈ S := by simpa using hsel.1.2
    exact hn (hnn ▸ this)

/-- Witness for C10: a two-function module instrumented with `only={"g"}`;
a second unfiltered call with an extra keyword argument is a no-op, `f` stays
unwrapped and unregistered. -/
theorem C10_witness :
    (instrument "M"
        (instrument "M"
            [("f", Attr.call (CVal.func (some "f") (some "M") (constFn 1))),
             ("g", Attr.call (CVal.func (some "g") (some "M") (constFn 2)))]
            (some (.inr ["g"])) none [] initState).1 none none [("measure_func", 0)]
        (instrument "M"
            [("f", Attr.call (CVal.func (some "f") (some "M") (constFn 1))),
             ("g", Attr.call (CVal.func (some "g") (some "M") (constFn 2)))]
            (some (.inr ["g"])) none [] initState).2.1
      = ((instrument "M"
            [("f", Attr.call (CVal.func (some "f") (some "M") (constFn 1))),
             ("g", Attr.call (CVal.func (some "g") (some "M") (constFn 2)))]
            (some (.inr ["g"])) none [] initState).1,
         (instrument "M"
            [("f", Attr.call (CVal.func (some "f") (some "M") (constFn 1))),
             ("g", Attr.call (CVal.func (some "g") (some "M") (constFn 2)))]
            (some (.inr ["g"])) none [] initState).2.1, none)) ∧
    alGet (instrument "M"
        [("f", Attr.call (CVal.func (some "f") (some "M") (constFn 1))),
         ("g", Attr.call (CVal.func (some "g") (some "M") (constFn 2)))]
        (some (.inr ["g"])) none [] initState).1 "f"
      = some (Attr.call (CVal.func (some "f") (some "M") (constFn 1))) ∧
    alGet (instrument "M"
        [("f", Attr.call (CVal.func (some "f") (some "M") (constFn 1))),
         ("g", Attr.call (CVal.func (some "g") (some "M") (constFn 2)))]
        (some (.inr ["g"])) none [] initState).2.1.originals ("M", "f") = none := by
  have h := C10_partial_instrumentation_marks_namespace
    [("f", Attr.call (CVal.func (some "f") (some "M") (constFn 1))),
     ("g", Attr.call (CVal.func (some "g") (some "M") (constFn 2)))]
    initState "M" ["g"] (by simp) (by simp [initState])
  refine ⟨h.1 none none [("measure_func", 0)], ?_, ?_⟩
  · rw [h.2.1 "f" (by decide)]; rfl
  · rw [h.2.2 "f" (by decide)]; rfl

/-- C7: the printed statistics of a timing series are the sample count, the
sum, the arithmetic mean, the sample standard deviation — reported as exactly
0 for a single-sample series, and otherwise characterised here by its square
together with nonnegativity — the minimum and the maximum.  For the samples
[0.001, 0.003, 0.002] they are count 3, sum 0.006, mean 0.002, min 0.001,
max 0.003, and the sample standard deviation is exactly 0.001 (the
nonnegative number whose square is the reported squared deviation
0.000001). -/
theorem C7_statistics_report :
    (∀ x : Rat, (computeStats [x]).stdSq = 0) ∧
    computeStats [1/1000, 3/1000, 2/1000]
      = { count := 3, total := 3/500, avg := 1/500, stdSq := 1/1000000,
          minT := 1/1000, maxT := 3/1000 } ∧
    (0 ≤ (1/1000 : Rat) ∧
      ((1 : Rat)/1000) ^ 2 = (computeStats [1/1000, 3/1000, 2/1000]).stdSq) ∧
    printAllStatistics [(("M", "h"), [1/1000, 3/1000, 2/1000])]
      = [(("M", "h"), computeStats [1/1000, 3/1000, 2/1000])] := by
  have hstats : computeStats [1/1000, 3/1000, 2/1000]
      = { count := 3, total := 3/500, avg := 1/500, stdSq := 1/1000000,
          minT := 1/1000, maxT := 3/1000 } := by
    simp only [computeStats, mean, sampleStdevSq, listMin, listMax, FuncStats.mk.injEq]
    norm_num [min_def, max_def]
  refine ⟨?_, hstats, ⟨by norm_num, ?_⟩, ?_⟩
  · intro x
    simp [computeStats]
  · rw [hstats]
    norm_num
  · simp [printAllStatistics]

/-! ### Lemmas about `restore_all` -/

theorem getAttr_restoreEntry_ne (sysm : List (String × ModuleDict))
    (k : String × String) (c : CVal) (m a : String) (h : k ≠ (m, a)) :
    getAttr (restoreEntry sysm k c) m a = getAttr sysm m a := by
  unfold restoreEntry
  cases hget : alGet sysm k.1 with
  | none => rfl
  | some md =>
    dsimp only
    by_cases hhas : alHas md k.2 = true
    · rw [if_pos hhas]
      by_cases hm : m = k.1
      · subst hm
        unfold getAttr
        rw [alGet_alSet_self, hget]
        have ha : a ≠ k.2 := by
          intro he
          apply h
          rw [he]
        simp [Option.bind, alGet_alSet_ne _ _ _ _ ha]
      · unfold getAttr
        rw [alGet_alSet_ne _ _ _ _ hm]
    · rw [if_neg hhas]

theorem getAttr_restoreEntry_self (sysm : List (String × ModuleDict))
    (k : String × String) (c : CVal) (h : (getAttr sysm k.1 k.2).isSome = true) :
    getAttr (restoreEntry sysm k c) k.1 k.2 = some (.call c) := by
  unfold getAttr restoreEntry at *
  cases hget : alGet sysm k.1 with
  | none => rw [hget] at h; simp [Option.bind] at h
  | some md =>
    rw [hget] at h
    simp only [Option.bind] at h
    have hhas : alHas md k.2 = true := h
    dsimp only
    rw [if_pos hhas, alGet_alSet_self]
    simp [Option.bind, alGet_alSet_self]

theorem getAttr_restoreEntry_isSome (sysm : List (String × ModuleDict))
    (k : String × String) (c : CVal) (m a : String)
    (h : (getAttr sysm m a).isSome = true) :
    (getAttr (restoreEntry sysm k c) m a).isSome = true := by
  by_cases hk : k = (m, a)
  · subst hk
    rw [getAttr_restoreEntry_self sysm _ c h]
    rfl
  · rw [getAttr_restoreEntry_ne sysm k c m a hk]
    exact h

theorem restore_fold_pres (entries : List ((String × String) × CVal)) :
    ∀ (sysm : List (String × ModuleDict)) (m a : String),
    (∀ p ∈ entries, p.1 ≠ (m, a)) →
    getAttr (entries.foldl (fun acc p => restoreEntry acc p.1 p.2) sysm) m a
      = getAttr sysm m a := by
  induction entries with
  | nil => intro sysm m a _; rfl
  | cons p rest ih =>
    intro sysm m a h
    rw [List.foldl_cons, ih _ _ _ (fun q hq => h q (List.mem_cons_of_mem _ hq)),
      getAttr_restoreEntry_ne _ _ _ _ _ (h p (List.mem_cons_self _ _))]

theorem restore_fold_rebinds (entries : List ((String × String) × CVal)) :
    ∀ (sysm : List (String × ModuleDict)) (k : String × String) (c : CVal),
    (entries.map Prod.fst).Nodup → (k, c) ∈ entries →
    (getAttr sysm k.1 k.2).isSome = true →
    getAttr (entries.foldl (fun acc p => restoreEntry acc p.1 p.2) sysm) k.1 k.2
      = some (.call c) := by
  induction entries with
  | nil => intro sysm k c _ hmem; simp at hmem
  | cons p rest ih =>
    intro sysm k c hnd hmem hsome
    rw [List.map_cons, List.nodup_cons] at hnd
    rcases List.mem_cons.mp hmem with he | hmem2
    · rw [List.foldl_cons, ← he]
      rw [restore_fold_pres _ _ _ _ ?_, getAttr_restoreEntry_self _ _ _ hsome]
      intro q hq hcontra
      rw [← he] at hnd
      have hk : q.1 = k := hcontra
      have hmem3 : q.1 ∈ List.map Prod.fst rest := List.mem_map_of_mem Prod.fst hq
      rw [hk] at hmem3
      exact hnd.1 hmem3
    · rw [List.foldl_cons]
      exact ih _ _ _ hnd.2 hmem2
        (getAttr_restoreEntry_isSome _ _ _ _ _ hsome)

/-- C9: `restore_all` (a total function — per-entry restoration problems are
branch conditions that skip the entry, never abort the walk) rebinds, for
every registry entry whose namespace and attribute are resolvable, the
attribute back to the stored original; and afterwards, unconditionally, the
timing map, the instrumented-namespace set and the original-callable registry
are empty and the exit-hook-registered flag is false, so any subsequent
`instrument(N)` runs a full wrapping pass with no stale already-instrumented
suppression. -/
theorem C9_restore_all_behavior (w : World)
    (hnd : (w.gs.originals.map Prod.fst).Nodup) :
    (restoreAll w).gs = initState ∧
    (∀ mname, mname ∉ (restoreAll w).gs.instrumented) ∧
    (∀ k c, (k, c) ∈ w.gs.originals → (getAttr w.sysModules k.1 k.2).isSome = true →
      getAttr (restoreAll w).sysModules k.1 k.2 = some (.call c)) ∧
    (∀ (mname : String) (md : ModuleDict) (only exclude : Option (String ⊕ List String))
        (kwargs : List (String × Val)),
      instrument mname md only exclude kwargs (restoreAll w).gs
        = instrumentModuleLoop kwargs mname (normalizeNames only)
            (normalizeNames exclude) (md.map Prod.fst) md
            { timings := [], instrumented := [mname], originals := [],
              registeredExit := true }) := by
  refine ⟨rfl, ?_, ?_, ?_⟩
  · intro mname
    simp [restoreAll, initState]
  · intro k c hmem hsome
    exact restore_fold_rebinds _ _ _ _ hnd hmem hsome
  · intro mname md only exclude kwargs
    rw [show (restoreAll w).gs = initState from rfl,
      instrument_eq_loop _ _ _ _ _ _ (by simp [initState])]
    simp [initState]

/-- Witness for C9: one instrumented module with one wrapped function is
restored; the attribute is rebound to the plain original and the state is
cleared. -/
theorem C9_witness :
    (restoreAll
        { sysModules :=
            [("M", [("f", Attr.call (.wrapper "M" "f"
              (CVal.func (some "f") (some "M") (constFn 7))))])],
          gs :=
            { timings := [(("M", "f"), [1/2])], instrumented := ["M"],
              originals := [(("M", "f"), CVal.func (some "f") (some "M") (constFn 7))],
              registeredExit := true } }).gs = initState ∧
    getAttr (restoreAll
        { sysModules :=
            [("M", [("f", Attr.call (.wrapper "M" "f"
              (CVal.func (some "f") (some "M") (constFn 7))))])],
          gs :=
            { timings := [(("M", "f"), [1/2])], instrumented := ["M"],
              originals := [(("M", "f"), CVal.func (some "f") (some "M") (constFn 7))],
              registeredExit := true } }).sysModules "M" "f"
      = some (.call (CVal.func (some "f") (some "M") (constFn 7))) := by
  have h := C9_restore_all_behavior
    { sysModules :=
        [("M", [("f", Attr.call (.wrapper "M" "f"
          (CVal.func (some "f") (some "M") (constFn 7))))])],
      gs :=
        { timings := [(("M", "f"), [1/2])], instrumented := ["M"],
          originals := [(("M", "f"), CVal.func (some "f") (some "M") (constFn 7))],
          registeredExit := true } } (by simp)
  exact ⟨h.1, h.2.2.1 ("M", "f") (CVal.func (some "f") (some "M") (constFn 7))
    (by simp) (by rfl)⟩

/-- C3 (code bug): in the single-callable path, the registry lookup
`if key in _original_functions:` has a `pass` body, so when the identity
("m", "f") is already registered the code does not silently continue — it
builds and installs a fresh wrapper anyway and overwrites the registry entry.
Evaluated here at the failing input where the module attribute (the existing
wrapper of `f`) is passed in: the call returns a new double wrapper, the
module attribute is rebound to it, the registry entry is overwritten with the
wrapper itself (no longer the original), and invoking the rebound attribute
now appends two samples for one call. -/
theorem C3_reinstrumentation_rewraps :
    (instrumentSingleFunction
        (.wrapper "m" "f" (CVal.func (some "f") (some "m") (constFn 0))) []
        { sysModules :=
            [("m", [("f", Attr.call (.wrapper "m" "f"
              (CVal.func (some "f") (some "m") (constFn 0))))])],
          gs :=
            { timings := [], instrumented := ["m"],
              originals := [(("m", "f"), CVal.func (some "f") (some "m") (constFn 0))],
              registeredExit := true } }).2
      = .ok (.wrapper "m" "f"
          (.wrapper "m" "f" (CVal.func (some "f") (some "m") (constFn 0)))) ∧
    (instrumentSingleFunction
        (.wrapper "m" "f" (CVal.func (some "f") (some "m") (constFn 0))) []
        { sysModules :=
            [("m", [("f", Attr.call (.wrapper "m" "f"
              (CVal.func (some "f") (some "m") (constFn 0))))])],
          gs :=
            { timings := [], instrumented := ["m"],
              originals := [(("m", "f"), CVal.func (some "f") (some "m") (constFn 0))],
              registeredExit := true } }).1.gs.originals
      = [(("m", "f"),
          CVal.wrapper "m" "f" (CVal.func (some "f") (some "m") (constFn 0)))] ∧
    CVal.wrapper "m" "f" (CVal.func (some "f") (some "m") (constFn 0))
      ≠ CVal.func (some "f") (some "m") (constFn 0) ∧
    getAttr (instrumentSingleFunction
        (.wrapper "m" "f" (CVal.func (some "f") (some "m") (constFn 0))) []
        { sysModules :=
            [("m", [("f", Attr.call (.wrapper "m" "f"
              (CVal.func (some "f") (some "m") (constFn 0))))])],
          gs :=
            { timings := [], instrumented := ["m"],
              originals := [(("m", "f"), CVal.func (some "f") (some "m") (constFn 0))],
              registeredExit := true } }).1.sysModules "m" "f"
      = some (.call (.wrapper "m" "f"
          (.wrapper "m" "f" (CVal.func (some "f") (some "m") (constFn 0))))) ∧
    ((alGet (callCVal unitClock
        (.wrapper "m" "f"
          (.wrapper "m" "f" (CVal.func (some "f") (some "m") (constFn 0)))) []
        (instrumentSingleFunction
            (.wrapper "m" "f" (CVal.func (some "f") (some "m") (constFn 0))) []
            { sysModules :=
                [("m", [("f", Attr.call (.wrapper "m" "f"
                  (CVal.func (some "f") (some "m") (constFn 0))))])],
              gs :=
                { timings := [], instrumented := ["m"],
                  originals :=
                    [(("m", "f"), CVal.func (some "f") (some "m") (constFn 0))],
                  registeredExit := true } }).1.gs 0).2.1.timings
        ("m", "f")).getD []).length = 2 := by
  refine ⟨rfl, rfl, by simp, rfl, rfl⟩

/-- C4 (code bug): `instrument` with a non-empty set of extra keyword config
arguments does not succeed: the `**kwargs` forwarded to
`_create_timed_function` hit a function that declares no extra parameters, so
a `TypeError` is raised on the first eligible callable — after the module was
already added to the instrumented set and the original already registered. -/
theorem C4_config_kwargs_raise :
    (instrument "M" [("f", Attr.call (CVal.func (some "f") (some "M") (constFn 0)))]
        none none [("measure_func", 0)] initState).2.2
      = some "_create_timed_function() got an unexpected keyword argument: measure_func" ∧
    (instrument "M" [("f", Attr.call (CVal.func (some "f") (some "M") (constFn 0)))]
        none none [("measure_func", 0)] initState).2.1.instrumented = ["M"] ∧
    alGet (instrument "M" [("f", Attr.call (CVal.func (some "f") (some "M") (constFn 0)))]
        none none [("measure_func", 0)] initState).2.1.originals ("M", "f")
      = some (CVal.func (some "f") (some "M") (constFn 0)) ∧
    (instrument "M" [("f", Attr.call (CVal.func (some "f") (some "M") (constFn 0)))]
        none none [("measure_func", 0)] initState).1
      = [("f", Attr.call (CVal.func (some "f") (some "M") (constFn 0)))] :=
  ⟨rfl, rfl, rfl, rfl⟩

end Gousset
